import Mathlib

/-!
Verification of the rusty-peanut debug-telemetry decoder core.

Shallow embedding of `src/debugobjects.rs` and `src/serial.rs`:
machine floats (`f32`) are modelled as exact rationals extended with the
special values infinity, negative infinity and NaN; a Rust panic or an
infinite loop is modelled as `Option.none` threaded through the state
transformers; the byte stream of the serial framer is a `List Nat` of
byte values.
-/

namespace RP

/-- Model of Rust `f32`: an exact rational, or one of the special values.
Rounding is not modelled; every claim checked here is rounding-independent. -/
inductive F32 where
  | num (val : ℚ)
  | inf
  | neginf
  | nan
  deriving DecidableEq

/-- Partial-order `<` of Rust `f32`: NaN is incomparable with everything. -/
def F32.lt : F32 → F32 → Bool
  | .num a, .num b => a < b
  | .neginf, .num _ => true
  | .neginf, .inf => true
  | .num _, .inf => true
  | _, _ => false

/-- Partial-order `<=` of Rust `f32`: NaN is incomparable with everything. -/
def F32.le : F32 → F32 → Bool
  | .num a, .num b => a ≤ b
  | .neginf, .num _ => true
  | .neginf, .inf => true
  | .neginf, .neginf => true
  | .num _, .inf => true
  | .inf, .inf => true
  | _, _ => false

/-- Rust `f32::clamp(self, min, max)`: asserts `min <= max` (panic modelled as
`none` when the assertion fails, which includes NaN bounds), then
`if self < min { min } else if self > max { max } else { self }`. -/
def rustClamp (v mn mx : F32) : Option F32 :=
  if F32.le mn mx then
    some (if F32.lt v mn then mn else if F32.lt mx v then mx else v)
  else
    none

/-- An 8-bit RGB colour, as in `nannou::Rgb<u8>`. -/
structure Color where
  r : ℕ
  g : ℕ
  b : ℕ
  deriving DecidableEq

def BLACK : Color := ⟨0, 0, 0⟩
def WHITE : Color := ⟨255, 255, 255⟩
def ORANGE : Color := ⟨255, 165, 0⟩
def BLUE : Color := ⟨0, 0, 255⟩
def GREEN : Color := ⟨0, 128, 0⟩
def CYAN : Color := ⟨0, 255, 255⟩
def RED : Color := ⟨255, 0, 0⟩
def MAGENTA : Color := ⟨255, 0, 255⟩
def YELLOW : Color := ⟨255, 255, 0⟩
def GREY : Color := ⟨128, 128, 128⟩

/-- The static `COLOR_MAP` of `debugobjects.rs`. -/
def COLOR_MAP : List (String × Color) :=
  [("BLACK", BLACK), ("WHITE", WHITE), ("ORANGE", ORANGE), ("BLUE", BLUE),
   ("GREEN", GREEN), ("CYAN", CYAN), ("RED", RED), ("MAGENTA", MAGENTA),
   ("YELLOW", YELLOW)]

/-- Lookup in `COLOR_MAP` (`phf::Map::get`). -/
def colorLookup (name : String) : Option Color :=
  (COLOR_MAP.find? (fun p => p.1 == name)).map Prod.snd

/- ### Numeric token parsing (`str::parse::<f32>` and `str::parse::<usize>`) -/

/-- Longest prefix of decimal digits, and the rest. -/
def takeDigits : List Char → List Char × List Char
  | [] => ([], [])
  | c :: cs =>
    if c.isDigit then
      let (ds, r) := takeDigits cs
      (c :: ds, r)
    else ([], c :: cs)

/-- Value of a list of decimal digits. -/
def digitsVal (ds : List Char) : ℕ :=
  ds.foldl (fun acc c => acc * 10 + (c.toNat - 48)) 0

/-- Optional exponent part `e|E [+|-] digits` of the Rust float grammar;
the whole rest of the token must be consumed. -/
def parseExp? (m : ℚ) : List Char → Option ℚ
  | [] => some m
  | c :: r =>
    if c = 'e' ∨ c = 'E' then
      let (eneg, r2) :=
        match r with
        | '+' :: t => (false, t)
        | '-' :: t => (true, t)
        | _ => (false, r)
      let (es, r3) := takeDigits r2
      if es.isEmpty ∨ ¬ r3.isEmpty then none
      else some (if eneg then m / 10 ^ digitsVal es else m * 10 ^ digitsVal es)
    else none

/-- Unsigned decimal number of the Rust float grammar:
`Count | Count . Count? | Count? . Count`, then an optional exponent. -/
def parseDec? (cs : List Char) : Option ℚ :=
  let (ds, r1) := takeDigits cs
  match r1 with
  | '.' :: r2 =>
    let (fs, r3) := takeDigits r2
    if ds.isEmpty ∧ fs.isEmpty then none
    else parseExp? ((digitsVal ds : ℚ) + (digitsVal fs : ℚ) / 10 ^ fs.length) r3
  | _ =>
    if ds.isEmpty then none else parseExp? (digitsVal ds) r1

/-- Rust `str::parse::<f32>()`: optional sign, then case-insensitive
`inf`/`infinity`/`nan` or a decimal number, with the value kept exact. -/
def parseF32? (s : String) : Option F32 :=
  match s.toList with
  | [] => none
  | c :: cs =>
    let (neg, body) :=
      if c = '+' then (false, cs)
      else if c = '-' then (true, cs)
      else (false, c :: cs)
    let low := body.map Char.toLower
    if low = "inf".toList ∨ low = "infinity".toList then
      some (if neg then F32.neginf else F32.inf)
    else if low = "nan".toList then some F32.nan
    else
      match parseDec? body with
      | some q => some (F32.num (if neg then -q else q))
      | none => none

/-- Rust `str::parse::<usize>()`: optional `+`, decimal digits only,
overflow beyond the 64-bit range rejected. -/
def parseUsize? (s : String) : Option ℕ :=
  match s.toList with
  | [] => none
  | c :: cs =>
    let body := if c = '+' then cs else c :: cs
    if body.isEmpty ∨ ¬ body.all Char.isDigit then none
    else if digitsVal body < 2 ^ 64 then some (digitsVal body) else none

/- ### debugobjects.rs -/

/-- Accumulator pass of Rust `str::split_whitespace`: split on whitespace runs,
producing no empty fragments. -/
def splitWSAux : List Char → List Char → List (List Char)
  | [], acc => if acc.isEmpty then [] else [acc.reverse]
  | c :: cs, acc =>
    if c.isWhitespace then
      if acc.isEmpty then splitWSAux cs [] else acc.reverse :: splitWSAux cs []
    else splitWSAux cs (c :: acc)

/-- Rust `str::split_whitespace`, collected to a list. The `filter` the code
applies afterwards never removes anything, since no fragment is empty. -/
def split_whitespace (line : String) : List String :=
  (splitWSAux line.data []).map (fun cs => String.mk cs)

/-- Whether a string starts with the one-character pattern `c`
(Rust `str::starts_with`). -/
def startsWithChar (c : Char) (s : String) : Bool :=
  match s.data with
  | [] => false
  | d :: _ => d == c

/-- Rust `str::split` on a one-character pattern: separators delimit fragments
and empty fragments are kept, so `n` separators yield `n + 1` fragments. -/
def splitOnChar (sep : Char) : List Char → List (List Char)
  | [] => [[]]
  | c :: cs =>
    if c == sep then [] :: splitOnChar sep cs
    else
      match splitOnChar sep cs with
      | r :: rs => (c :: r) :: rs
      | [] => [[c]]

/-- The single-quote character, used by the quote-stripping convention. -/
def quoteChar : Char := Char.ofNat 39

/-- The single-quote character as a one-character string, for building inputs. -/
def quoteStr : String := String.singleton quoteChar

/-- The backtick sigil character that marks a protocol keyword. -/
def sigilChar : Char := Char.ofNat 96

/-- The `strip_single_quotes` helper: split on the quote character and take
the middle part, by the positional split-count convention `v[v.len() / 2]`
(always in bounds, since splitting yields at least one part). -/
def strip_single_quotes (input : String) : String :=
  let v := (splitOnChar quoteChar input.data).map (fun cs => String.mk cs)
  v.getD (v.length / 2) ""

deriving instance DecidableEq for Except

/-- The error enum `DebugObjectError`. -/
inductive DebugObjectError where
  | NoNameGiven
  | InvalidFormat (s : String)
  | IndexError
  | ParseNumberError
  deriving DecidableEq

/-- A tokenised protocol line: sigil-stripped keyword plus remaining tokens. -/
structure DebugLine where
  keyword : String
  tokens : List String
  deriving DecidableEq

/-- `DebugLine::from_str`: split on whitespace, drop empty fragments, demand a
first token starting with the backtick sigil, strip the sigil (one character,
matching the one-byte slice `[1..]`). -/
def DebugLine.from_str (line : String) : Except DebugObjectError DebugLine :=
  let tokens := split_whitespace line
  match tokens with
  | t0 :: rest =>
    if startsWithChar sigilChar t0 then Except.ok ⟨String.mk (t0.data.drop 1), rest⟩
    else Except.error (DebugObjectError.InvalidFormat line)
  | [] => Except.error (DebugObjectError.InvalidFormat line)

/-- The parsed `SCOPE` declaration configuration. -/
structure ScopeConfig where
  name : String
  pos : F32 × F32
  size : F32 × F32
  samples : ℕ
  rate : ℕ
  color : Color
  deriving DecidableEq

/-- The keyword/argument scan loop of `ScopeConfig::from_tokens`, fuel-indexed;
the fuel `tokens.length + 1` always suffices because the index strictly grows
by at least 2 on every iteration. A `SIZE` or `SAMPLES` keyword demands its
numeric arguments (missing → `IndexError`, unparsable → `ParseNumberError`,
both propagated); any other keyword stops the scan without error. -/
def scLoopF (tokens : List String) : ℕ → ℕ → F32 × F32 → ℕ →
    Except DebugObjectError ((F32 × F32) × ℕ)
  | 0, _, size, samples => Except.ok (size, samples)
  | fuel + 1, index, size, samples =>
    if h : index < tokens.length then
      let command := tokens.get ⟨index, h⟩
      if command = "SIZE" then
        match tokens.get? (index + 1) with
        | none => Except.error DebugObjectError.IndexError
        | some wTok =>
          match parseF32? wTok with
          | none => Except.error DebugObjectError.ParseNumberError
          | some w =>
            match tokens.get? (index + 2) with
            | none => Except.error DebugObjectError.IndexError
            | some hTok =>
              match parseF32? hTok with
              | none => Except.error DebugObjectError.ParseNumberError
              | some ht => scLoopF tokens fuel (index + 3) (w, ht) samples
      else if command = "SAMPLES" then
        match tokens.get? (index + 1) with
        | none => Except.error DebugObjectError.IndexError
        | some sTok =>
          match parseUsize? sTok with
          | none => Except.error DebugObjectError.ParseNumberError
          | some n => scLoopF tokens fuel (index + 2) size n
      else Except.ok (size, samples)
    else Except.ok (size, samples)

/-- `ScopeConfig::from_tokens`: token 0 is the (quote-stripped) name, required;
then the keyword/argument scan starting at index 1 with defaults
position `(0,0)`, size `(255,256)`, 256 samples, rate 1, black colour.
Errors from the scan propagate and fail the whole parse. -/
def ScopeConfig.from_tokens (tokens : List String) : Except DebugObjectError ScopeConfig :=
  match tokens.get? 0 with
  | none => Except.error DebugObjectError.NoNameGiven
  | some name =>
    match scLoopF tokens (tokens.length + 1) 1 (F32.num 255, F32.num 256) 256 with
    | Except.error e => Except.error e
    | Except.ok (size, samples) =>
      Except.ok ⟨strip_single_quotes name, (F32.num 0, F32.num 0), size, samples, 1, BLACK⟩

/-- The parsed signal declaration configuration. -/
structure ScopeSignalConfig where
  name : String
  min : F32
  max : F32
  y_size : F32
  y_base : F32
  color : Color
  deriving DecidableEq

/-- `ScopeSignalConfig::from_tokens`: mandatory name and four numerics in fixed
order (missing → `IndexError`, unparsable → `ParseNumberError`, each
propagated by `?`); the colour defaults to yellow, and is read from token 6
(falling back to yellow when unknown) only when token 5 exists and starts
with a percent sign. -/
def ScopeSignalConfig.from_tokens (tokens : List String) :
    Except DebugObjectError ScopeSignalConfig :=
  match tokens.get? 0 with
  | none => Except.error DebugObjectError.NoNameGiven
  | some name =>
    match tokens.get? 1 with
    | none => Except.error DebugObjectError.IndexError
    | some t1 =>
      match parseF32? t1 with
      | none => Except.error DebugObjectError.ParseNumberError
      | some mn =>
        match tokens.get? 2 with
        | none => Except.error DebugObjectError.IndexError
        | some t2 =>
          match parseF32? t2 with
          | none => Except.error DebugObjectError.ParseNumberError
          | some mx =>
            match tokens.get? 3 with
            | none => Except.error DebugObjectError.IndexError
            | some t3 =>
              match parseF32? t3 with
              | none => Except.error DebugObjectError.ParseNumberError
              | some ys =>
                match tokens.get? 4 with
                | none => Except.error DebugObjectError.IndexError
                | some t4 =>
                  match parseF32? t4 with
                  | none => Except.error DebugObjectError.ParseNumberError
                  | some yb =>
                    let color :=
                      match tokens.get? 5 with
                      | some legendOrColor =>
                        if startsWithChar '%' legendOrColor then
                          match tokens.get? 6 with
                          | some colorName => (colorLookup colorName).getD YELLOW
                          | none => YELLOW
                        else YELLOW
                      | none => YELLOW
                    Except.ok ⟨strip_single_quotes name, mn, mx, ys, yb, color⟩

/-- A live signal: clamp range, layout hints, colour, and the value history
(newest at the back). -/
structure ScopeSignal where
  name : String
  min : F32
  max : F32
  y_size : F32
  y_base : F32
  color : Color
  values : List F32
  deriving DecidableEq

/-- A live scope: registry name, configured sample capacity, layout rectangle
(kept as position and size), colours, and the ordered signal list. -/
structure Scope where
  name : String
  samples : ℕ
  rect : (F32 × F32) × (F32 × F32)
  background : Color
  grid : Color
  signals : List ScopeSignal
  deriving DecidableEq

/-- `Scope::new`: parse the configuration (errors propagate), start with no
signals, black background, grey grid. -/
def Scope.new (tokens : List String) : Except DebugObjectError Scope :=
  match ScopeConfig.from_tokens tokens with
  | Except.error e => Except.error e
  | Except.ok config =>
    Except.ok ⟨config.name, config.samples, (config.pos, config.size), BLACK, GREY, []⟩

/-- The front-eviction loop `while values.len() >= samples { values.pop_front() }`,
fuel-indexed so that its non-termination at `samples = 0` is observable:
`none` means the fuel ran out. Popping the front of an empty deque leaves it
unchanged, exactly as `VecDeque::pop_front` does. -/
def evictLoop : ℕ → List F32 → ℕ → Option (List F32)
  | 0, _, _ => none
  | fuel + 1, vals, samples =>
    if vals.length ≥ samples then
      match vals with
      | [] => evictLoop fuel [] samples
      | _ :: rest => evictLoop fuel rest samples
    else some vals

/-- One signal insert of `Scope::feed_floats`: clamp (panic propagated as
`none`), push to the back, then run the eviction loop with fuel that is
sufficient whenever the loop terminates at all. -/
def signalInsert (samples : ℕ) (sig : ScopeSignal) (v : F32) : Option ScopeSignal := do
  let c ← rustClamp v sig.min sig.max
  let pushed := sig.values ++ [c]
  let vals ← evictLoop (pushed.length + 1) pushed samples
  some { sig with values := vals }

/-- The `signals.iter_mut().zip(values)` traversal of `Scope::feed_floats`:
pairwise by position, shortest sequence wins. -/
def zipFeed (samples : ℕ) : List ScopeSignal → List F32 → Option (List ScopeSignal)
  | sigs, [] => some sigs
  | [], _ :: _ => some []
  | sig :: sigs, v :: vs => do
    let sig2 ← signalInsert samples sig v
    let rest ← zipFeed samples sigs vs
    some (sig2 :: rest)

/-- `Scope::feed_floats`: feed one data row positionally into the signals;
a length mismatch is only diagnosed, never rejected. -/
def Scope.feed_floats (sc : Scope) (values : List F32) : Option Scope := do
  let sigs ← zipFeed sc.samples sc.signals values
  some { sc with signals := sigs }

/-- `Scope::setup_signal`: parse the declaration (errors propagate) and append
a new signal whose history is seeded with the two values `0.0, 0.0` of
`VecDeque::from(vec![0.0, 0.0])`. -/
def Scope.setup_signal (sc : Scope) (tokens : List String) : Except DebugObjectError Scope :=
  match ScopeSignalConfig.from_tokens tokens with
  | Except.error e => Except.error e
  | Except.ok c =>
    Except.ok { sc with signals :=
      sc.signals ++ [⟨c.name, c.min, c.max, c.y_size, c.y_base, c.color,
                      [F32.num 0, F32.num 0]⟩] }

/-- Strip one optional trailing comma from a token, as `Scope::feed` does. -/
def stripComma (t : String) : String :=
  if t.data.getLast? = some ',' then String.mk t.data.dropLast else t

/-- The float-row scan of `Scope::feed`: every token, after stripping one
optional trailing comma, must parse as a float; the scan stops at the first
failure and the row is then not a data row. -/
def parseRow : List String → Option (List F32)
  | [] => some []
  | t :: ts => do
    let v ← parseF32? (stripComma t)
    let rest ← parseRow ts
    some (v :: rest)

/-- `Scope::feed` (the `DebugProcessor` impl): an all-float token list is fed
as a data row; otherwise the list is handed to the signal-declaration parser,
whose failure leaves the scope unchanged (diagnostic only). -/
def Scope.feed (sc : Scope) (tokens : List String) : Option Scope :=
  match parseRow tokens with
  | some floats => sc.feed_floats floats
  | none =>
    match sc.setup_signal tokens with
    | Except.ok sc2 => some sc2
    | Except.error _ => some sc

/-- The registry of live objects, keyed by name; the single `DebugObject`
variant is a `Scope`. Modelled as an association list with the `HashMap`
semantics used by the code: lookup by key, insert replaces an existing key. -/
abbrev Objects := List (String × Scope)

/-- `HashMap::get` on the registry. -/
def lookupObj : Objects → String → Option Scope
  | [], _ => none
  | (k, v) :: rest, key => if k = key then some v else lookupObj rest key

/-- In-place mutation through `HashMap::get_mut`: replace the value stored
under an existing key. -/
def updateObj : Objects → String → Scope → Objects
  | [], _, _ => []
  | (k, v) :: rest, key, nv =>
    if k = key then (k, nv) :: rest else (k, v) :: updateObj rest key nv

/-- `HashMap::insert`: replace the value under the key if present, otherwise
add the binding. -/
def insertObj : Objects → String → Scope → Objects
  | [], key, nv => [(key, nv)]
  | (k, v) :: rest, key, nv =>
    if k = key then (key, nv) :: rest else (k, v) :: insertObj rest key nv

/-- `DebugObjects::create`: only the `SCOPE` keyword has a factory, and it
requires at least one token (the new name); a failed `Scope::new` yields no
object. -/
def DebugObjects.create (keyword : String) (tokens : List String) : Option Scope :=
  if tokens.length ≥ 1 then
    if keyword = "SCOPE" then
      match Scope.new tokens with
      | Except.ok scope => some scope
      | Except.error _ => none
    else none
  else none

/-- `DebugObjects::feed`: tokenise the line (failure drops it), route the
keyword to an existing object's feed, or else try factory creation and
register the new object under the name it reports. `none` models a feed that
does not return normally (panic or hang inside `Scope::feed`). -/
def DebugObjects.feed (objects : Objects) (line : String) : Option Objects :=
  match DebugLine.from_str line with
  | Except.error _ => some objects
  | Except.ok dl =>
    match lookupObj objects dl.keyword with
    | some scope =>
      match Scope.feed scope dl.tokens with
      | some scope2 => some (updateObj objects dl.keyword scope2)
      | none => none
    | none =>
      match DebugObjects.create dl.keyword dl.tokens with
      | some newObj => some (insertObj objects newObj.name newObj)
      | none => some objects

/-- Feed a sequence of lines in order, starting from a given registry. -/
def DebugObjects.feedAll (objects : Objects) : List String → Option Objects
  | [] => some objects
  | l :: ls => do
    let o2 ← DebugObjects.feed objects l
    DebugObjects.feedAll o2 ls

/-- Feed a list of one-value data rows to a scope, one `feed_floats` per row. -/
def feedRows (sc : Scope) : List F32 → Option Scope
  | [] => some sc
  | v :: vs => do
    let sc2 ← Scope.feed_floats sc [v]
    feedRows sc2 vs

/- ### serial.rs -/

/-- Whether a continuation byte is in `80..=BF`. -/
def contByte (b : ℕ) : Bool := 128 ≤ b && b ≤ 191

/-- UTF-8 validity of a byte sequence, as checked by `std::str::from_utf8`. -/
def utf8Valid : List ℕ → Bool
  | [] => true
  | c :: rest =>
    if c ≤ 127 then utf8Valid rest
    else if 194 ≤ c && c ≤ 223 then
      match rest with
      | c1 :: r => contByte c1 && utf8Valid r
      | [] => false
    else if c = 224 then
      match rest with
      | c1 :: c2 :: r => (160 ≤ c1 && c1 ≤ 191) && contByte c2 && utf8Valid r
      | _ => false
    else if 225 ≤ c && c ≤ 236 then
      match rest with
      | c1 :: c2 :: r => contByte c1 && contByte c2 && utf8Valid r
      | _ => false
    else if c = 237 then
      match rest with
      | c1 :: c2 :: r => (128 ≤ c1 && c1 ≤ 159) && contByte c2 && utf8Valid r
      | _ => false
    else if 238 ≤ c && c ≤ 239 then
      match rest with
      | c1 :: c2 :: r => contByte c1 && contByte c2 && utf8Valid r
      | _ => false
    else if c = 240 then
      match rest with
      | c1 :: c2 :: c3 :: r => (144 ≤ c1 && c1 ≤ 191) && contByte c2 && contByte c3 && utf8Valid r
      | _ => false
    else if 241 ≤ c && c ≤ 243 then
      match rest with
      | c1 :: c2 :: c3 :: r => contByte c1 && contByte c2 && contByte c3 && utf8Valid r
      | _ => false
    else if c = 244 then
      match rest with
      | c1 :: c2 :: c3 :: r => (128 ≤ c1 && c1 ≤ 143) && contByte c2 && contByte c3 && utf8Valid r
      | _ => false
    else false

/-- The `ends_with_crlf` test of `LineProtocol::feed`:
length at least 2 and the last two bytes are `13, 10`. -/
def endsWithCRLF (l : List ℕ) : Bool := l.drop (l.length - 2) == [13, 10]

/-- The internal byte buffer of `LineProtocol`. -/
structure LineProtocol where
  bytes : List ℕ
  deriving DecidableEq

/-- One byte of `LineProtocol::feed`: push the byte; when the buffer now ends
with CRLF, emit everything before the terminator if it decodes as UTF-8
(nothing otherwise) and clear the buffer in either case. -/
def LineProtocol.step (st : LineProtocol) (c : ℕ) : LineProtocol × Option (List ℕ) :=
  let b := st.bytes ++ [c]
  if endsWithCRLF b then
    (⟨[]⟩, if utf8Valid (b.take (b.length - 2)) then some (b.take (b.length - 2)) else none)
  else (⟨b⟩, none)

/-- `LineProtocol::feed`: process a buffer byte by byte, collecting the lines
passed to the callback, in order. -/
def LineProtocol.feed (st : LineProtocol) : List ℕ → LineProtocol × List (List ℕ)
  | [] => (st, [])
  | c :: rest =>
    let p := st.step c
    let q := LineProtocol.feed p.1 rest
    (q.1, p.2.toList ++ q.2)

/- ### Specification-side framing functions (for the refinement claim C9) -/

/-- Modelled from the spec: whether a byte sequence contains a CRLF occurrence. -/
def hasCRLF : List ℕ → Bool
  | [] => false
  | [_] => false
  | a :: b :: rest => (a == 13 && b == 10) || hasCRLF (b :: rest)

/-- Modelled from the spec: number of CRLF occurrences in a byte sequence. -/
def countCRLF : List ℕ → ℕ
  | [] => 0
  | [_] => 0
  | a :: b :: rest => if a = 13 ∧ b = 10 then countCRLF rest + 1 else countCRLF (b :: rest)

/-- Modelled from the spec: split a byte sequence at its first CRLF occurrence
into the bytes strictly before it and the bytes strictly after it. -/
def splitCRLF? : List ℕ → Option (List ℕ × List ℕ)
  | [] => none
  | [_] => none
  | a :: b :: rest =>
    if a = 13 ∧ b = 10 then some ([], rest)
    else (splitCRLF? (b :: rest)).map (fun p => (a :: p.1, p.2))

/-- Fuel-indexed repeated splitting: the complete CRLF-terminated segments of
a byte sequence, and the trailing fragment after the last terminator. -/
def crlfSegmentsF : ℕ → List ℕ → List (List ℕ) × List ℕ
  | 0, bs => ([], bs)
  | fuel + 1, bs =>
    match splitCRLF? bs with
    | some p =>
      let r := crlfSegmentsF fuel p.2
      (p.1 :: r.1, r.2)
    | none => ([], bs)

/-- Modelled from the spec: the CRLF-terminated segments of a byte sequence and
the trailing fragment; the fuel `bs.length + 1` always suffices because each
split strictly shortens the remainder. -/
def crlfSegments (bs : List ℕ) : List (List ℕ) × List ℕ :=
  crlfSegmentsF (bs.length + 1) bs

/- ### Helper lemmas about the F32 order and clamping -/

theorem f32_lt_irrefl (a : F32) : F32.lt a a = false := by
  cases a <;> simp [F32.lt]

theorem f32_le_not_lt {a b : F32} (h : F32.le a b = true) : F32.lt b a = false := by
  cases a <;> cases b <;> simp_all [F32.le, F32.lt, not_lt]

theorem rustClamp_sound {v mn mx c : F32} (h : rustClamp v mn mx = some c) :
    F32.lt c mn = false ∧ F32.lt mx c = false := by
  unfold rustClamp at h
  by_cases hle : F32.le mn mx
  · simp only [hle, if_true, Option.some.injEq] at h
    by_cases h1 : F32.lt v mn
    · simp only [h1, if_true] at h
      exact h ▸ ⟨f32_lt_irrefl mn, f32_le_not_lt hle⟩
    · simp only [h1, if_false] at h
      by_cases h2 : F32.lt mx v
      · simp only [h2, if_true] at h
        exact h ▸ ⟨f32_le_not_lt hle, f32_lt_irrefl mx⟩
      · simp only [h2, if_false] at h
        subst h
        exact ⟨Bool.not_eq_true _ ▸ (by simpa using h1), by simpa using h2⟩
  · simp [hle] at h

theorem rustClamp_total {mn mx : F32} (v : F32) (hle : F32.le mn mx = true) :
    rustClamp v mn mx = some (if F32.lt v mn then mn else if F32.lt mx v then mx else v) := by
  simp [rustClamp, hle]

/- ### Helper lemmas about the eviction loop -/

theorem evictLoop_capacity_zero : ∀ fuel vals, evictLoop fuel vals 0 = none := by
  intro fuel
  induction fuel with
  | zero => intro vals; rfl
  | succ n ih => intro vals; cases vals <;> simp [evictLoop, ih]

theorem evictLoop_pos : ∀ fuel (vals : List F32) (samples : ℕ), 1 ≤ samples →
    vals.length < fuel →
    ∃ n, evictLoop fuel vals samples = some (vals.drop n) ∧
      (vals.drop n).length = min vals.length (samples - 1) := by
  intro fuel
  induction fuel with
  | zero => intro vals samples _ hlen; omega
  | succ f ih =>
    intro vals samples hs hlen
    by_cases hge : vals.length ≥ samples
    · cases vals with
      | nil => simp only [List.length_nil] at hge; omega
      | cons v rest =>
        obtain ⟨n, hn, hlen2⟩ :=
          ih rest samples hs (by simp only [List.length_cons] at hlen; omega)
        refine ⟨n + 1, ?_, ?_⟩
        · simp only [evictLoop, if_pos hge]
          simpa using hn
        · simp only [List.drop_succ_cons]
          rw [hlen2]
          simp only [List.length_cons] at hge ⊢
          omega
    · refine ⟨0, ?_, ?_⟩
      · simp only [evictLoop, if_neg hge, List.drop_zero]
      · simp only [List.drop_zero]
        omega

theorem evictLoop_drop : ∀ fuel (vals : List F32) samples r,
    evictLoop fuel vals samples = some r → ∃ n, r = vals.drop n := by
  intro fuel
  induction fuel with
  | zero => intro vals samples r h; exact absurd h (by simp [evictLoop])
  | succ f ih =>
    intro vals samples r h
    by_cases hge : vals.length ≥ samples
    · cases vals with
      | nil =>
        simp only [evictLoop, if_pos hge] at h
        obtain ⟨n, hn⟩ := ih [] samples r h
        exact ⟨n, by simpa using hn⟩
      | cons v rest =>
        simp only [evictLoop, if_pos hge] at h
        obtain ⟨n, hn⟩ := ih rest samples r h
        exact ⟨n + 1, by simpa using hn⟩
    · simp only [evictLoop, if_neg hge, Option.some.injEq] at h
      exact ⟨0, by simp [h.symm]⟩

/- ### Helper lemmas about signal insertion and row feeding -/

theorem signalInsert_eq {samples : ℕ} {sig sig' : ScopeSignal} {v : F32}
    (h : signalInsert samples sig v = some sig') :
    sig'.name = sig.name ∧ sig'.min = sig.min ∧ sig'.max = sig.max ∧
    ∃ c n, rustClamp v sig.min sig.max = some c ∧
      sig'.values = (sig.values ++ [c]).drop n := by
  simp only [signalInsert, Option.bind_eq_bind, Option.bind_eq_some] at h
  obtain ⟨c, hc, vals, hv, heq⟩ := h
  obtain ⟨n, hn⟩ := evictLoop_drop _ _ _ _ hv
  injection heq with heq
  subst heq
  exact ⟨rfl, rfl, rfl, c, n, hc, hn⟩

theorem signalInsert_total {samples : ℕ} {sig : ScopeSignal} (v : F32)
    (hle : F32.le sig.min sig.max = true) (hs : 1 ≤ samples) :
    ∃ sig', signalInsert samples sig v = some sig' ∧ sig'.name = sig.name ∧
      sig'.min = sig.min ∧ sig'.max = sig.max ∧
      sig'.values.length = min (sig.values.length + 1) (samples - 1) := by
  set c := (if F32.lt v sig.min then sig.min else if F32.lt sig.max v then sig.max else v) with hc
  obtain ⟨n, hn, hlen⟩ :=
    evictLoop_pos ((sig.values ++ [c]).length + 1) (sig.values ++ [c]) samples hs
      (Nat.lt_succ_self _)
  refine ⟨{ sig with values := (sig.values ++ [c]).drop n }, ?_, rfl, rfl, rfl, ?_⟩
  · simp only [signalInsert, rustClamp_total v hle, ← hc, Option.bind_eq_bind, Option.some_bind,
      hn]
  · rw [hlen]; simp

theorem zipFeed_length {samples : ℕ} : ∀ (sigs : List ScopeSignal) (vs : List F32) sigs',
    zipFeed samples sigs vs = some sigs' → sigs'.length = sigs.length := by
  intro sigs
  induction sigs with
  | nil =>
    intro vs sigs' h
    cases vs <;> simp only [zipFeed, Option.some.injEq] at h <;> simp [← h]
  | cons sig rest ih =>
    intro vs sigs' h
    cases vs with
    | nil => simp only [zipFeed, Option.some.injEq] at h; simp [← h]
    | cons v vrest =>
      simp only [zipFeed, Option.bind_eq_bind, Option.bind_eq_some, Option.some.injEq] at h
      obtain ⟨sig2, _, rest2, hrest, heq⟩ := h
      subst heq
      simp [ih vrest rest2 hrest]

theorem zipFeed_total {samples : ℕ} (hs : 1 ≤ samples) :
    ∀ (sigs : List ScopeSignal) (vs : List F32),
    (∀ sig ∈ sigs, F32.le sig.min sig.max = true) →
    (zipFeed samples sigs vs).isSome = true := by
  intro sigs
  induction sigs with
  | nil => intro vs _; cases vs <;> simp [zipFeed]
  | cons sig rest ih =>
    intro vs hall
    cases vs with
    | nil => simp [zipFeed]
    | cons v vrest =>
      obtain ⟨sig2, hins, -⟩ :=
        signalInsert_total v (hall sig (List.mem_cons_self sig rest)) hs
      have hrest := ih vrest (fun s hm => hall s (List.mem_cons_of_mem sig hm))
      obtain ⟨rest2, hrest2⟩ := Option.isSome_iff_exists.mp hrest
      simp [zipFeed, hins, hrest2]

theorem Scope.feed_floats_fields {sc sc' : Scope} {values : List F32}
    (h : Scope.feed_floats sc values = some sc') :
    sc'.name = sc.name ∧ sc'.samples = sc.samples ∧
    sc'.signals.length = sc.signals.length := by
  simp only [Scope.feed_floats, Option.bind_eq_bind, Option.bind_eq_some,
    Option.some.injEq] at h
  obtain ⟨sigs, hsigs, heq⟩ := h
  subst heq
  exact ⟨rfl, rfl, zipFeed_length sc.signals values sigs hsigs⟩

theorem Scope.setup_signal_fields {sc sc' : Scope} {tokens : List String}
    (h : Scope.setup_signal sc tokens = Except.ok sc') :
    sc'.name = sc.name ∧ sc'.samples = sc.samples ∧
    ∃ ns, sc'.signals = sc.signals ++ [ns] ∧ ns.values = [F32.num 0, F32.num 0] := by
  unfold Scope.setup_signal at h
  cases hcfg : ScopeSignalConfig.from_tokens tokens with
  | error e => rw [hcfg] at h; cases h
  | ok c =>
    rw [hcfg] at h
    injection h with h
    subst h
    exact ⟨rfl, rfl, _, rfl, rfl⟩

theorem Scope.feed_fields {sc sc' : Scope} {tokens : List String}
    (h : Scope.feed sc tokens = some sc') :
    sc'.name = sc.name ∧ sc'.samples = sc.samples := by
  unfold Scope.feed at h
  cases hrow : parseRow tokens with
  | some floats =>
    rw [hrow] at h
    exact ⟨(Scope.feed_floats_fields h).1, (Scope.feed_floats_fields h).2.1⟩
  | none =>
    rw [hrow] at h
    cases hsetup : Scope.setup_signal sc tokens with
    | ok sc2 =>
      rw [hsetup] at h
      injection h with h
      subst h
      exact ⟨(Scope.setup_signal_fields hsetup).1, (Scope.setup_signal_fields hsetup).2.1⟩
    | error e =>
      rw [hsetup] at h
      injection h with h
      subst h
      exact ⟨rfl, rfl⟩

theorem Scope.feed_isSome (sc : Scope) (tokens : List String) (hs : 1 ≤ sc.samples)
    (hall : ∀ sig ∈ sc.signals, F32.le sig.min sig.max = true) :
    (Scope.feed sc tokens).isSome = true := by
  unfold Scope.feed
  cases hrow : parseRow tokens with
  | some floats =>
    have := zipFeed_total hs sc.signals floats hall
    obtain ⟨sigs, hsigs⟩ := Option.isSome_iff_exists.mp this
    simp [Scope.feed_floats, hsigs]
  | none =>
    cases hsetup : Scope.setup_signal sc tokens <;> simp

theorem Scope.new_signals {tokens : List String} {sc : Scope}
    (h : Scope.new tokens = Except.ok sc) : sc.signals = [] := by
  unfold Scope.new at h
  cases hcfg : ScopeConfig.from_tokens tokens with
  | error e => rw [hcfg] at h; cases h
  | ok config => rw [hcfg] at h; injection h with h; subst h; rfl

/- ### Helper lemmas about the registry -/

theorem lookupObj_mem : ∀ (objects : Objects) key sc,
    lookupObj objects key = some sc → (key, sc) ∈ objects := by
  intro objects
  induction objects with
  | nil => intro key sc h; cases h
  | cons p rest ih =>
    intro key sc h
    obtain ⟨k, v⟩ := p
    by_cases hk : k = key
    · subst hk
      simp only [lookupObj, if_pos rfl, if_true, Option.some.injEq] at h
      subst h
      exact List.mem_cons_self _ _
    · simp only [lookupObj, if_neg hk] at h
      exact List.mem_cons_of_mem _ (ih key sc h)

theorem updateObj_mem : ∀ (objects : Objects) key nv p,
    p ∈ updateObj objects key nv → p ∈ objects ∨ p = (key, nv) := by
  intro objects
  induction objects with
  | nil => intro key nv p h; cases h
  | cons q rest ih =>
    intro key nv p h
    obtain ⟨k, v⟩ := q
    by_cases hk : k = key
    · subst hk
      simp only [updateObj, if_pos rfl, if_true] at h
      rcases List.mem_cons.mp h with h | h
      · exact Or.inr h
      · exact Or.inl (List.mem_cons_of_mem _ h)
    · simp only [updateObj, if_neg hk] at h
      rcases List.mem_cons.mp h with h | h
      · exact Or.inl (h ▸ List.mem_cons_self _ _)
      · rcases ih key nv p h with h | h
        · exact Or.inl (List.mem_cons_of_mem _ h)
        · exact Or.inr h

theorem insertObj_mem : ∀ (objects : Objects) key nv p,
    p ∈ insertObj objects key nv → p ∈ objects ∨ p = (key, nv) := by
  intro objects
  induction objects with
  | nil =>
    intro key nv p h
    simp only [insertObj] at h
    exact Or.inr (List.mem_singleton.mp h)
  | cons q rest ih =>
    intro key nv p h
    obtain ⟨k, v⟩ := q
    by_cases hk : k = key
    · subst hk
      simp only [insertObj, if_pos rfl, if_true] at h
      rcases List.mem_cons.mp h with h | h
      · exact Or.inr h
      · exact Or.inl (List.mem_cons_of_mem _ h)
    · simp only [insertObj, if_neg hk] at h
      rcases List.mem_cons.mp h with h | h
      · exact Or.inl (h ▸ List.mem_cons_self _ _)
      · rcases ih key nv p h with h | h
        · exact Or.inl (List.mem_cons_of_mem _ h)
        · exact Or.inr h

theorem updateObj_keys : ∀ (objects : Objects) key nv p,
    p ∈ updateObj objects key nv → p.2 = nv → p.1 = key ∨ p ∈ objects := by
  intro objects
  induction objects with
  | nil => intro key nv p h; cases h
  | cons q rest ih =>
    intro key nv p h hv
    obtain ⟨k, v⟩ := q
    by_cases hk : k = key
    · subst hk
      simp only [updateObj, if_pos rfl, if_true] at h
      rcases List.mem_cons.mp h with h | h
      · subst h; exact Or.inl rfl
      · exact Or.inr (List.mem_cons_of_mem _ h)
    · simp only [updateObj, if_neg hk] at h
      rcases List.mem_cons.mp h with h | h
      · exact Or.inr (h ▸ List.mem_cons_self _ _)
      · rcases ih key nv p h hv with h | h
        · exact Or.inl h
        · exact Or.inr (List.mem_cons_of_mem _ h)

/- ### Helper lemmas about framing -/

theorem hasCRLF_tail {a : ℕ} {l : List ℕ} (h : hasCRLF (a :: l) = false) :
    hasCRLF l = false := by
  cases l with
  | nil => rfl
  | cons b rest =>
    simp only [hasCRLF, Bool.or_eq_false_iff] at h
    exact h.2

theorem endsWithCRLF_iff {l : List ℕ} : endsWithCRLF l = true ↔ ∃ w, l = w ++ [13, 10] := by
  unfold endsWithCRLF
  constructor
  · intro h
    refine ⟨l.take (l.length - 2), ?_⟩
    have hbeq : l.drop (l.length - 2) = [13, 10] := by simpa using h
    conv_lhs => rw [← List.take_append_drop (l.length - 2) l]
    rw [hbeq]
  · rintro ⟨w, rfl⟩
    have hlen : (w ++ [13, 10]).length - 2 = w.length := by simp
    rw [hlen, List.drop_left]
    simp

theorem endsWithCRLF_snoc {buf : List ℕ} {c : ℕ} :
    endsWithCRLF (buf ++ [c]) = true ↔ c = 10 ∧ ∃ w, buf = w ++ [13] := by
  rw [endsWithCRLF_iff]
  constructor
  · rintro ⟨w, hw⟩
    have h0 : buf ++ [c] = (w ++ [13]) ++ [10] := by
      rw [hw]; simp
    obtain ⟨h1, h2⟩ := List.append_inj' h0 (by simp)
    injection h2 with h2
    exact ⟨h2, w, h1⟩
  · rintro ⟨rfl, w, rfl⟩
    exact ⟨w, by simp⟩

theorem hasCRLF_snoc : ∀ (buf : List ℕ) (c : ℕ), hasCRLF buf = false →
    endsWithCRLF (buf ++ [c]) = false → hasCRLF (buf ++ [c]) = false := by
  intro buf
  induction buf with
  | nil => intro c _ _; rfl
  | cons a rest ih =>
    intro c h he
    have he' : ¬(c = 10 ∧ ∃ w, a :: rest = w ++ [13]) := by
      intro hx
      rw [endsWithCRLF_snoc.mpr hx] at he
      cases he
    cases rest with
    | nil =>
      show ((a == 13 && c == 10) || hasCRLF [c]) = false
      have h1 : hasCRLF [c] = false := rfl
      rw [h1, Bool.or_false]
      cases hA : (a == 13) with
      | false => simp [hA]
      | true =>
        have ha : a = 13 := by simpa using hA
        cases hC : (c == 10) with
        | false => simp [hC]
        | true =>
          have hc : c = 10 := by simpa using hC
          exact ((he' ⟨hc, [], by simp [ha]⟩).elim)
    | cons b rest' =>
      have h1 : (a == 13 && b == 10) = false := by
        simp only [hasCRLF, Bool.or_eq_false_iff] at h
        exact h.1
      have h2 : hasCRLF ((b :: rest') ++ [c]) = false := by
        refine ih c (hasCRLF_tail h) ?_
        by_cases hb : endsWithCRLF ((b :: rest') ++ [c]) = true
        · obtain ⟨hc, w, hw⟩ := endsWithCRLF_snoc.mp hb
          exact absurd ⟨hc, a :: w, by rw [hw]; rfl⟩ he'
        · exact Bool.not_eq_true _ ▸ (by simpa using hb)
      simp only [List.cons_append, hasCRLF, Bool.or_eq_false_iff] at h2 ⊢
      exact ⟨h1, by simpa using h2⟩

theorem splitCRLF_clean : ∀ (w rest : List ℕ), hasCRLF (w ++ [13]) = false →
    splitCRLF? (w ++ 13 :: 10 :: rest) = some (w, rest) := by
  intro w
  induction w with
  | nil => intro rest _; simp [splitCRLF?]
  | cons a w' ih =>
    intro rest h
    cases w' with
    | nil =>
      have hab : ¬(a = 13 ∧ (13 : ℕ) = 10) := by
        rintro ⟨-, hx⟩; cases hx
      simp only [List.nil_append, List.cons_append, splitCRLF?, if_neg hab]
      simp [splitCRLF?]
    | cons b w'' =>
      have hab : ¬(a = 13 ∧ b = 10) := by
        rintro ⟨rfl, rfl⟩
        simp [List.cons_append, hasCRLF] at h
      have ih' := ih rest (hasCRLF_tail (by simpa using h))
      simp only [List.cons_append] at ih' ⊢
      rw [splitCRLF?, if_neg hab, ih']
      rfl

theorem splitCRLF_none : ∀ l : List ℕ, hasCRLF l = false → splitCRLF? l = none := by
  intro l
  induction l with
  | nil => intro _; rfl
  | cons a rest ih =>
    intro h
    cases rest with
    | nil => rfl
    | cons b rest' =>
      simp only [hasCRLF, Bool.or_eq_false_iff] at h
      have hab : ¬(a = 13 ∧ b = 10) := by
        have := h.1
        simp only [Bool.and_eq_false_iff, beq_eq_false_iff_ne, ne_eq] at this
        rcases this with h' | h' <;> rintro ⟨rfl, rfl⟩ <;> exact h' rfl
      rw [splitCRLF?, if_neg hab, ih h.2]
      rfl

theorem splitCRLF_length : ∀ (l : List ℕ) p, splitCRLF? l = some p → p.2.length < l.length := by
  intro l
  induction l with
  | nil => intro p h; cases h
  | cons a rest ih =>
    intro p h
    cases rest with
    | nil => cases h
    | cons b rest' =>
      by_cases hab : a = 13 ∧ b = 10
      · simp only [splitCRLF?, if_pos hab, Option.some.injEq] at h
        subst h
        simp only [List.length_cons]
        omega
      · simp only [splitCRLF?, if_neg hab, Option.map_eq_some'] at h
        obtain ⟨q, hq, hp⟩ := h
        subst hp
        have := ih q hq
        simp only [List.length_cons] at this ⊢
        omega

theorem countCRLF_split : ∀ (l : List ℕ) p, splitCRLF? l = some p →
    countCRLF l = countCRLF p.2 + 1 := by
  intro l
  induction l with
  | nil => intro p h; cases h
  | cons a rest ih =>
    intro p h
    cases rest with
    | nil => cases h
    | cons b rest' =>
      by_cases hab : a = 13 ∧ b = 10
      · simp only [splitCRLF?, if_pos hab, Option.some.injEq] at h
        subst h
        simp [countCRLF, if_pos hab]
      · simp only [splitCRLF?, if_neg hab, Option.map_eq_some'] at h
        obtain ⟨q, hq, hp⟩ := h
        subst hp
        rw [countCRLF, if_neg hab]
        exact ih q hq

theorem countCRLF_noSplit : ∀ l : List ℕ, splitCRLF? l = none → countCRLF l = 0 := by
  intro l
  induction l with
  | nil => intro _; rfl
  | cons a rest ih =>
    intro h
    cases rest with
    | nil => rfl
    | cons b rest' =>
      by_cases hab : a = 13 ∧ b = 10
      · rw [splitCRLF?, if_pos hab] at h
        cases h
      · rw [splitCRLF?, if_neg hab] at h
        rw [countCRLF, if_neg hab]
        exact ih (Option.map_eq_none'.mp h)

theorem crlfSegmentsF_fuel : ∀ f1 f2 (bs : List ℕ), bs.length < f1 → bs.length < f2 →
    crlfSegmentsF f1 bs = crlfSegmentsF f2 bs := by
  intro f1
  induction f1 with
  | zero => intro f2 bs h _; omega
  | succ f ih =>
    intro f2 bs h1 h2
    cases f2 with
    | zero => omega
    | succ f2' =>
      cases hs : splitCRLF? bs with
      | none => simp only [crlfSegmentsF, hs]
      | some p =>
        have hlen := splitCRLF_length bs p hs
        simp only [crlfSegmentsF, hs]
        rw [ih f2' p.2 (by omega) (by omega)]

theorem crlfSegmentsF_count : ∀ fuel (bs : List ℕ), bs.length < fuel →
    (crlfSegmentsF fuel bs).1.length = countCRLF bs := by
  intro fuel
  induction fuel with
  | zero => intro bs h; omega
  | succ f ih =>
    intro bs h
    cases hs : splitCRLF? bs with
    | none =>
      simp only [crlfSegmentsF, hs, List.length_nil]
      exact (countCRLF_noSplit bs hs).symm
    | some p =>
      have hlen := splitCRLF_length bs p hs
      simp only [crlfSegmentsF, hs, List.length_cons]
      rw [ih p.2 (by omega), countCRLF_split bs p hs]

theorem crlfSegments_count (bs : List ℕ) : (crlfSegments bs).1.length = countCRLF bs :=
  crlfSegmentsF_count (bs.length + 1) bs (Nat.lt_succ_self _)

theorem lineProtocol_feed_spec : ∀ (bs : List ℕ) (buf : List ℕ), hasCRLF buf = false →
    LineProtocol.feed ⟨buf⟩ bs =
      (⟨(crlfSegments (buf ++ bs)).2⟩, ((crlfSegments (buf ++ bs)).1).filter utf8Valid) := by
  intro bs
  induction bs with
  | nil =>
    intro buf h
    have hsplit := splitCRLF_none buf h
    simp only [LineProtocol.feed, List.append_nil, crlfSegments, crlfSegmentsF, hsplit,
      List.filter_nil]
  | cons c rest ih =>
    intro buf h
    by_cases hend : endsWithCRLF (buf ++ [c]) = true
    · obtain ⟨hc, w, hw⟩ := endsWithCRLF_snoc.mp hend
      subst hc
      subst hw
      have hsplit : splitCRLF? ((w ++ [13]) ++ 10 :: rest) = some (w, rest) := by
        rw [List.append_assoc]
        simpa using splitCRLF_clean w rest h
      have hcontent : ((w ++ [13]) ++ [10]).take (((w ++ [13]) ++ [10]).length - 2) = w := by
        rw [List.append_assoc]
        have hlen : (w ++ [13, 10]).length - 2 = w.length := by simp
        simp only [List.cons_append, List.nil_append] at hlen ⊢
        rw [hlen, List.take_left]
      have hih := ih [] rfl
      simp only [List.nil_append] at hih
      have hfuel : crlfSegmentsF ((w ++ [13]) ++ 10 :: rest).length rest = crlfSegments rest := by
        apply crlfSegmentsF_fuel
        · simp only [List.length_append, List.length_cons]
          omega
        · exact Nat.lt_succ_self _
      show
        (let p := LineProtocol.step ⟨w ++ [13]⟩ 10
         let q := LineProtocol.feed p.1 rest
         (q.1, p.2.toList ++ q.2)) = _
      simp only [LineProtocol.step, hend, if_true, hcontent, hih]
      simp only [crlfSegments, crlfSegmentsF, hsplit, hfuel, List.filter_cons]
      by_cases hv : utf8Valid w = true
      · simp [hv]
      · simp only [Bool.not_eq_true] at hv
        simp [hv]
    · have hend' : endsWithCRLF (buf ++ [c]) = false := by
        simpa using hend
      have hih := ih (buf ++ [c]) (hasCRLF_snoc buf c h hend')
      show
        (let p := LineProtocol.step ⟨buf⟩ c
         let q := LineProtocol.feed p.1 rest
         (q.1, p.2.toList ++ q.2)) = _
      simp only [LineProtocol.step, hend', if_false, Bool.false_eq_true, Option.toList_none,
        List.nil_append, hih, List.append_assoc, List.cons_append, List.nil_append]

/- ### State invariants used by the claims -/

/-- Every retained value of a signal is either the seed value `0.0` pushed at
attach time or satisfies the clamp bounds of its signal, in the negated-`<`
sense that `f32::clamp` guarantees (equivalent to `min ≤ v ∧ v ≤ max` for
non-NaN values). -/
def SigClamped (sig : ScopeSignal) : Prop :=
  ∀ v ∈ sig.values, v = F32.num 0 ∨
    (F32.lt v sig.min = false ∧ F32.lt sig.max v = false)

/-- All signals of a scope satisfy `SigClamped`. -/
def ScopeClamped (sc : Scope) : Prop := ∀ sig ∈ sc.signals, SigClamped sig

/-- All scopes of a registry satisfy `ScopeClamped`. -/
def RegClamped (objects : Objects) : Prop := ∀ p ∈ objects, ScopeClamped p.2

/-- Every key of the registry equals the keyed object's own declared name. -/
def KeysMatch (objects : Objects) : Prop := ∀ p ∈ objects, p.1 = p.2.name

/-- Every scope of the registry has nonzero capacity and well-ordered signal
clamp ranges, the conditions under which no feed can panic or hang. -/
def RangesWF (objects : Objects) : Prop :=
  ∀ p ∈ objects, 1 ≤ p.2.samples ∧ ∀ sig ∈ p.2.signals, F32.le sig.min sig.max = true

theorem signalInsert_clamped {samples : ℕ} {sig sig' : ScopeSignal} {v : F32}
    (h : signalInsert samples sig v = some sig') (hok : SigClamped sig) : SigClamped sig' := by
  obtain ⟨-, hmin, hmax, c, n, hc, hvals⟩ := signalInsert_eq h
  intro x hx
  rw [hvals] at hx
  have hx2 : x ∈ sig.values ++ [c] := List.drop_subset n _ hx
  rcases List.mem_append.mp hx2 with hx3 | hx3
  · rcases hok x hx3 with h0 | ⟨h1, h2⟩
    · exact Or.inl h0
    · exact Or.inr ⟨by rw [hmin]; exact h1, by rw [hmax]; exact h2⟩
  · have hx4 : x = c := List.mem_singleton.mp hx3
    subst hx4
    obtain ⟨h1, h2⟩ := rustClamp_sound hc
    exact Or.inr ⟨by rw [hmin]; exact h1, by rw [hmax]; exact h2⟩

theorem zipFeed_clamped {samples : ℕ} : ∀ (sigs : List ScopeSignal) (vs : List F32) sigs',
    zipFeed samples sigs vs = some sigs' → (∀ sig ∈ sigs, SigClamped sig) →
    ∀ sig' ∈ sigs', SigClamped sig' := by
  intro sigs
  induction sigs with
  | nil =>
    intro vs sigs' h hall
    cases vs <;> simp only [zipFeed, Option.some.injEq] at h <;> subst h
    · exact hall
    · intro sig' hs'; cases hs'
  | cons sig rest ih =>
    intro vs sigs' h hall
    cases vs with
    | nil =>
      simp only [zipFeed, Option.some.injEq] at h
      subst h
      exact hall
    | cons v vrest =>
      simp only [zipFeed, Option.bind_eq_bind, Option.bind_eq_some, Option.some.injEq] at h
      obtain ⟨sig2, hins, rest2, hrest, heq⟩ := h
      subst heq
      intro sig' hs'
      rcases List.mem_cons.mp hs' with hs' | hs'
      · subst hs'
        exact signalInsert_clamped hins (hall sig (List.mem_cons_self sig rest))
      · exact ih vrest rest2 hrest (fun s hm => hall s (List.mem_cons_of_mem sig hm)) sig' hs'

theorem Scope.feed_sig_clamped {sc sc' : Scope} {tokens : List String}
    (h : Scope.feed sc tokens = some sc') (hok : ScopeClamped sc) : ScopeClamped sc' := by
  unfold Scope.feed at h
  cases hrow : parseRow tokens with
  | some floats =>
    rw [hrow] at h
    simp only [Scope.feed_floats, Option.bind_eq_bind, Option.bind_eq_some,
      Option.some.injEq] at h
    obtain ⟨sigs, hsigs, heq⟩ := h
    subst heq
    exact zipFeed_clamped sc.signals floats sigs hsigs hok
  | none =>
    rw [hrow] at h
    cases hsetup : Scope.setup_signal sc tokens with
    | ok sc2 =>
      rw [hsetup] at h
      injection h with h
      subst h
      obtain ⟨-, -, ns, hsignals, hvals⟩ := Scope.setup_signal_fields hsetup
      intro sig hs
      rw [hsignals] at hs
      rcases List.mem_append.mp hs with hs | hs
      · exact hok sig hs
      · have : sig = ns := List.mem_singleton.mp hs
        subst this
        intro v hv
        rw [hvals] at hv
        rcases List.mem_cons.mp hv with hv | hv
        · exact Or.inl hv
        · exact Or.inl (List.mem_singleton.mp hv)
    | error e =>
      rw [hsetup] at h
      injection h with h
      subst h
      exact hok

theorem DebugObjects.create_signals {keyword : String} {tokens : List String} {sc : Scope}
    (h : DebugObjects.create keyword tokens = some sc) : sc.signals = [] := by
  unfold DebugObjects.create at h
  by_cases h1 : tokens.length ≥ 1
  · rw [if_pos h1] at h
    by_cases h2 : keyword = "SCOPE"
    · rw [if_pos h2] at h
      cases hnew : Scope.new tokens with
      | ok sc2 =>
        rw [hnew] at h
        injection h with h
        subst h
        exact Scope.new_signals hnew
      | error e => rw [hnew] at h; cases h
    · rw [if_neg h2] at h; cases h
  · rw [if_neg h1] at h; cases h

theorem DebugObjects.feed_clamped {objects reg : Objects} {line : String}
    (h : DebugObjects.feed objects line = some reg) (hok : RegClamped objects) :
    RegClamped reg := by
  unfold DebugObjects.feed at h
  split at h
  · injection h with h; subst h; exact hok
  · rename_i dl hdl
    split at h
    · rename_i sc hlook
      split at h
      · rename_i sc2 hfeed
        injection h with h
        subst h
        intro p hp
        rcases updateObj_mem objects dl.keyword sc2 p hp with hp2 | hp2
        · exact hok p hp2
        · rw [hp2]
          exact Scope.feed_sig_clamped hfeed (hok (dl.keyword, sc) (lookupObj_mem _ _ _ hlook))
      · cases h
    · rename_i hlook
      split at h
      · rename_i newObj hcr
        injection h with h
        subst h
        intro p hp
        rcases insertObj_mem _ _ _ p hp with hp2 | hp2
        · exact hok p hp2
        · rw [hp2]
          intro sig hs
          rw [DebugObjects.create_signals hcr] at hs
          cases hs
      · injection h with h; subst h; exact hok

theorem DebugObjects.feedAll_clamped : ∀ (lines : List String) (objects reg : Objects),
    RegClamped objects → DebugObjects.feedAll objects lines = some reg → RegClamped reg := by
  intro lines
  induction lines with
  | nil =>
    intro objects reg hok h
    simp only [DebugObjects.feedAll, Option.some.injEq] at h
    subst h
    exact hok
  | cons l ls ih =>
    intro objects reg hok h
    simp only [DebugObjects.feedAll, Option.bind_eq_bind, Option.bind_eq_some] at h
    obtain ⟨o2, ho2, hrest⟩ := h
    exact ih o2 reg (DebugObjects.feed_clamped ho2 hok) hrest

theorem DebugObjects.feed_keys {objects reg : Objects} {line : String}
    (h : DebugObjects.feed objects line = some reg) (hok : KeysMatch objects) :
    KeysMatch reg := by
  unfold DebugObjects.feed at h
  split at h
  · injection h with h; subst h; exact hok
  · rename_i dl hdl
    split at h
    · rename_i sc hlook
      split at h
      · rename_i sc2 hfeed
        injection h with h
        subst h
        intro p hp
        rcases updateObj_mem objects dl.keyword sc2 p hp with hp2 | hp2
        · exact hok p hp2
        · rw [hp2]
          have h1 : dl.keyword = sc.name := hok (dl.keyword, sc) (lookupObj_mem _ _ _ hlook)
          show dl.keyword = sc2.name
          rw [(Scope.feed_fields hfeed).1, ← h1]
      · cases h
    · rename_i hlook
      split at h
      · rename_i newObj hcr
        injection h with h
        subst h
        intro p hp
        rcases insertObj_mem _ _ _ p hp with hp2 | hp2
        · exact hok p hp2
        · rw [hp2]
      · injection h with h; subst h; exact hok

theorem DebugObjects.feedAll_keys : ∀ (lines : List String) (objects reg : Objects),
    KeysMatch objects → DebugObjects.feedAll objects lines = some reg → KeysMatch reg := by
  intro lines
  induction lines with
  | nil =>
    intro objects reg hok h
    simp only [DebugObjects.feedAll, Option.some.injEq] at h
    subst h
    exact hok
  | cons l ls ih =>
    intro objects reg hok h
    simp only [DebugObjects.feedAll, Option.bind_eq_bind, Option.bind_eq_some] at h
    obtain ⟨o2, ho2, hrest⟩ := h
    exact ih o2 reg (DebugObjects.feed_keys ho2 hok) hrest

theorem DebugObjects.feed_total (objects : Objects) (line : String) (hok : RangesWF objects) :
    (DebugObjects.feed objects line).isSome = true := by
  unfold DebugObjects.feed
  split
  · rfl
  · rename_i dl hdl
    split
    · rename_i sc hlook
      obtain ⟨hs, hall⟩ := hok (dl.keyword, sc) (lookupObj_mem _ _ _ hlook)
      obtain ⟨sc2, hsc2⟩ := Option.isSome_iff_exists.mp (Scope.feed_isSome sc dl.tokens hs hall)
      simp [hsc2]
    · rename_i hlook
      split
      · rfl
      · rfl

/- ### Helper lemmas for the claims about configuration parsing and row feeding -/

theorem from_tokens_cons (nm : String) (rest : List String) :
    ScopeConfig.from_tokens (nm :: rest) =
      match scLoopF (nm :: rest) ((nm :: rest).length + 1) 1 (F32.num 255, F32.num 256) 256 with
      | Except.error e => Except.error e
      | Except.ok (size, samples) =>
        Except.ok ⟨strip_single_quotes nm, (F32.num 0, F32.num 0), size, samples, 1, BLACK⟩ :=
  rfl

theorem scLoopF_break {tokens : List String} {fuel index : ℕ} {size : F32 × F32} {samples : ℕ}
    (h : index < tokens.length) (h1 : tokens.get ⟨index, h⟩ ≠ "SIZE")
    (h2 : tokens.get ⟨index, h⟩ ≠ "SAMPLES") :
    scLoopF tokens (fuel + 1) index size samples = Except.ok (size, samples) := by
  simp only [scLoopF, dif_pos h, if_neg h1, if_neg h2]

theorem scLoopF_samples {tokens : List String} {fuel index : ℕ} {size : F32 × F32} {samples : ℕ}
    (h : index < tokens.length) (hcmd : tokens.get ⟨index, h⟩ = "SAMPLES") :
    scLoopF tokens (fuel + 1) index size samples =
      match tokens.get? (index + 1) with
      | none => Except.error DebugObjectError.IndexError
      | some sTok =>
        match parseUsize? sTok with
        | none => Except.error DebugObjectError.ParseNumberError
        | some n => scLoopF tokens fuel (index + 2) size n := by
  have hns : tokens.get ⟨index, h⟩ ≠ "SIZE" := by rw [hcmd]; decide
  simp only [scLoopF, dif_pos h, if_neg hns, if_pos hcmd]

theorem scLoopF_size {tokens : List String} {fuel index : ℕ} {size : F32 × F32} {samples : ℕ}
    (h : index < tokens.length) (hcmd : tokens.get ⟨index, h⟩ = "SIZE") :
    scLoopF tokens (fuel + 1) index size samples =
      match tokens.get? (index + 1) with
      | none => Except.error DebugObjectError.IndexError
      | some wTok =>
        match parseF32? wTok with
        | none => Except.error DebugObjectError.ParseNumberError
        | some w =>
          match tokens.get? (index + 2) with
          | none => Except.error DebugObjectError.IndexError
          | some hTok =>
            match parseF32? hTok with
            | none => Except.error DebugObjectError.ParseNumberError
            | some ht => scLoopF tokens fuel (index + 3) (w, ht) samples := by
  simp only [scLoopF, dif_pos h, if_pos hcmd]

theorem scopeConfig_unknown_keyword (nm cmd : String) (rest : List String)
    (h1 : cmd ≠ "SIZE") (h2 : cmd ≠ "SAMPLES") :
    ScopeConfig.from_tokens (nm :: cmd :: rest) =
      Except.ok ⟨strip_single_quotes nm, (F32.num 0, F32.num 0),
        (F32.num 255, F32.num 256), 256, 1, BLACK⟩ := by
  rw [from_tokens_cons,
    @scLoopF_break (nm :: cmd :: rest) ((nm :: cmd :: rest).length) 1
      (F32.num 255, F32.num 256) 256 (by simp) h1 h2]

theorem scopeConfig_size_bad (nm t : String) (hpf : parseF32? t = none) :
    ScopeConfig.from_tokens [nm, "SIZE", t] = Except.error DebugObjectError.ParseNumberError := by
  rw [from_tokens_cons,
    @scLoopF_size [nm, "SIZE", t] ([nm, "SIZE", t].length) 1
      (F32.num 255, F32.num 256) 256 (by simp) rfl]
  have hget : [nm, "SIZE", t].get? (1 + 1) = some t := rfl
  simp only [hget, hpf]

theorem create_unknown_keyword (nm cmd : String) (rest : List String)
    (h1 : cmd ≠ "SIZE") (h2 : cmd ≠ "SAMPLES") :
    DebugObjects.create "SCOPE" (nm :: cmd :: rest) =
      some ⟨strip_single_quotes nm, 256, ((F32.num 0, F32.num 0), (F32.num 255, F32.num 256)),
        BLACK, GREY, []⟩ := by
  unfold DebugObjects.create
  rw [if_pos (by simp only [List.length_cons]; omega), if_pos rfl]
  unfold Scope.new
  rw [scopeConfig_unknown_keyword nm cmd rest h1 h2]

theorem updateObj_self : ∀ (objects : Objects) (key : String) (sc : Scope),
    lookupObj objects key = some sc → updateObj objects key sc = objects := by
  intro objects
  induction objects with
  | nil => intro key sc h; cases h
  | cons p rest ih =>
    intro key sc h
    obtain ⟨k, v⟩ := p
    by_cases hk : k = key
    · subst hk
      simp only [lookupObj, if_pos rfl, if_true, Option.some.injEq] at h
      subst h
      simp [updateObj]
    · simp only [lookupObj, if_neg hk] at h
      simp [updateObj, hk, ih key sc h]

theorem scopeConfig_samples_bad (nm t : String) (hpu : parseUsize? t = none) :
    ScopeConfig.from_tokens [nm, "SAMPLES", t] = Except.error DebugObjectError.ParseNumberError := by
  rw [from_tokens_cons,
    @scLoopF_samples [nm, "SAMPLES", t] ([nm, "SAMPLES", t].length) 1
      (F32.num 255, F32.num 256) 256 (by simp) rfl]
  have hget : [nm, "SAMPLES", t].get? (1 + 1) = some t := rfl
  simp only [hget, hpu]

theorem create_samples_bad (nm t : String) (hpu : parseUsize? t = none) :
    DebugObjects.create "SCOPE" [nm, "SAMPLES", t] = none := by
  unfold DebugObjects.create
  rw [if_pos (by simp), if_pos rfl]
  unfold Scope.new
  rw [scopeConfig_samples_bad nm t hpu]

theorem parseRow_isSome : ∀ tokens : List String,
    (parseRow tokens).isSome = true ↔ ∀ t ∈ tokens, (parseF32? (stripComma t)).isSome = true := by
  intro tokens
  induction tokens with
  | nil => simp [parseRow]
  | cons t ts ih =>
    cases hp : parseF32? (stripComma t) with
    | none =>
      simp only [parseRow, hp, Option.bind_eq_bind, Option.none_bind, Option.isSome_none,
        Bool.false_eq_true, false_iff]
      intro hall
      have := hall t (List.mem_cons_self t ts)
      rw [hp] at this
      cases this
    | some v =>
      cases hr : parseRow ts with
      | none =>
        rw [hr] at ih
        simp only [parseRow, hp, hr, Option.bind_eq_bind, Option.some_bind, Option.none_bind,
          Option.isSome_none, Bool.false_eq_true, false_iff] at ih ⊢
        intro hall
        exact ih (fun s hs => hall s (List.mem_cons_of_mem t hs))
      | some rest =>
        rw [hr] at ih
        simp only [parseRow, hp, hr, Option.bind_eq_bind, Option.some_bind, Option.isSome_some,
          true_iff] at ih ⊢
        intro s hs
        rcases List.mem_cons.mp hs with hs | hs
        · subst hs; simp [hp]
        · exact ih s hs

theorem feedRows_single : ∀ (rows : List F32) (sc : Scope) (sig : ScopeSignal),
    sc.signals = [sig] → 1 ≤ sc.samples → F32.le sig.min sig.max = true → 1 ≤ rows.length →
    ∃ sc' sig', feedRows sc rows = some sc' ∧ sc'.signals = [sig'] ∧
      sig'.min = sig.min ∧ sig'.max = sig.max ∧ sc'.samples = sc.samples ∧
      sig'.values.length = min (sig.values.length + rows.length) (sc.samples - 1) := by
  intro rows
  induction rows with
  | nil => intro sc sig _ _ _ habs; simp at habs
  | cons v vs ih =>
    intro sc sig hsig hs hle hlen
    obtain ⟨sig2, hins, hname, hmin, hmax, hlen2⟩ := signalInsert_total v hle hs
    have hzip : zipFeed sc.samples [sig] [v] = some [sig2] := by
      simp [zipFeed, hins]
    have hff : Scope.feed_floats sc [v] = some { sc with signals := [sig2] } := by
      rw [Scope.feed_floats, hsig]
      simp [hzip]
    cases vs with
    | nil =>
      refine ⟨{ sc with signals := [sig2] }, sig2, ?_, rfl, hmin, hmax, rfl, ?_⟩
      · simp [feedRows, hff]
      · simpa using hlen2
    | cons w ws =>
      have ih' := ih { sc with signals := [sig2] } sig2 rfl (by simpa using hs)
        (by rw [hmin, hmax]; exact hle) (by simp)
      obtain ⟨sc', sig', hfeed, hsigs, hmin', hmax', hsam', hlen'⟩ := ih'
      refine ⟨sc', sig', ?_, hsigs, by rw [hmin', hmin], by rw [hmax', hmax],
        by simpa using hsam', ?_⟩
      · simp only [feedRows, hff, Option.bind_eq_bind, Option.some_bind]
        exact hfeed
      · rw [hlen']
        simp only [List.length_cons, hlen2]
        omega

/- ### Claims -/

/-- C1 (counterexample): the claim says every retained value lies within the
declared clamp range from the moment the signal is attached, for any declared
range. It is false: attaching a signal seeds its history with two unclamped
`0.0` values, so declaring the range `[5, 10]` leaves the retained value `0`
below the declared minimum. -/
theorem C1_counterexample :
    (DebugObjects.feedAll []
        ["`SCOPE S", "`S " ++ quoteStr ++ "A" ++ quoteStr ++ " 5 10 1 1"]).map
        (fun reg => reg.map (fun p => p.2.signals.map (fun s => (s.min, s.values)))) =
      some [[(F32.num 5, [F32.num 0, F32.num 0])]] ∧
    F32.le (F32.num 5) (F32.num 0) = false := by
  constructor <;> decide

/-- C1 (amended): after any sequence of fed lines starting from the empty
registry, every retained value of every signal either is the seed value `0.0`
pushed at attach time or satisfies the clamp bounds of its signal (in the
negated-`<` sense that `f32::clamp` guarantees, equivalent to
`min ≤ v ∧ v ≤ max` for non-NaN values); values fed through data rows are
clamped on insert, never rejected. -/
theorem C1_clamped_invariant (lines : List String) (reg : Objects)
    (h : DebugObjects.feedAll [] lines = some reg) : RegClamped reg :=
  DebugObjects.feedAll_clamped lines [] reg (by intro p hp; cases hp) h

theorem C1_clamped_invariant_witness :
    RegClamped ((DebugObjects.feedAll [] ["`SCOPE W"]).getD []) :=
  C1_clamped_invariant ["`SCOPE W"] _ (by decide)

/-- C2 (counterexample): the claim says the scenario yields the history
`[31, 32, 33, 34, 35, 36]`. It is false: the history additionally holds the
two seed values `0.0` pushed when the signal was attached. -/
theorem C2_counterexample :
    ¬ ((DebugObjects.feedAll [] ["`SCOPE MyScope SIZE 254 84 SAMPLES 128",
        "`MyScope " ++ quoteStr ++ "Sawtooth" ++ quoteStr ++ " 0 63 64 10 %1111",
        "`MyScope 31", "`MyScope 32", "`MyScope 33", "`MyScope 34", "`MyScope 35",
        "`MyScope 36"]).map
          (fun reg => reg.map (fun p => p.2.signals.map (fun s => s.values))) =
      some [[[F32.num 31, F32.num 32, F32.num 33, F32.num 34, F32.num 35, F32.num 36]]]) := by
  decide

/-- C2 (amended): feeding the scenario's declaration, signal declaration and
six data rows yields exactly one scope named MyScope with one signal named
Sawtooth whose history is `[0, 0, 31, 32, 33, 34, 35, 36]` (the two seeds,
then the six clamped rows), and every retained value lies within `[0, 63]`. -/
theorem C2_scenario :
    DebugObjects.feedAll [] ["`SCOPE MyScope SIZE 254 84 SAMPLES 128",
        "`MyScope " ++ quoteStr ++ "Sawtooth" ++ quoteStr ++ " 0 63 64 10 %1111",
        "`MyScope 31", "`MyScope 32", "`MyScope 33", "`MyScope 34", "`MyScope 35",
        "`MyScope 36"] =
      some [("MyScope",
        ⟨"MyScope", 128, ((F32.num 0, F32.num 0), (F32.num 254, F32.num 84)), BLACK, GREY,
          [⟨"Sawtooth", F32.num 0, F32.num 63, F32.num 64, F32.num 10, YELLOW,
            [F32.num 0, F32.num 0, F32.num 31, F32.num 32, F32.num 33, F32.num 34,
             F32.num 35, F32.num 36]⟩]⟩)] ∧
    ([F32.num 0, F32.num 0, F32.num 31, F32.num 32, F32.num 33, F32.num 34, F32.num 35,
        F32.num 36].all (fun v => F32.le (F32.num 0) v && F32.le v (F32.num 63))) = true := by
  constructor <;> decide

/-- C3 (counterexample): the claim says routing never panics, even for a signal
declared with min greater than max followed by a numeric data row. It is
false: `f32::clamp` asserts `min <= max`, so such a row panics (modelled as
`none`). -/
theorem C3_counterexample :
    DebugObjects.feedAll [] ["`SCOPE S",
      "`S " ++ quoteStr ++ "A" ++ quoteStr ++ " 63 0 64 10", "`S 31"] = none := by
  decide

/-- C3 (amended): provided every registered scope has nonzero sample capacity
and every attached signal satisfies `min ≤ max`, routing any line returns
normally, and every failing line is skipped leaving the registry unchanged:
a line that fails tokenisation, a line whose unknown keyword has no factory
or whose SCOPE creation fails, and a line routed to an existing scope that is
neither a data row nor a valid signal declaration all yield the unchanged
registry. A signal declared with min greater than max panics on the next
paired data value, so the unrestricted claim fails. -/
theorem C3_no_panic (objects : Objects) (line : String) (hok : RangesWF objects) :
    (DebugObjects.feed objects line).isSome = true ∧
    (∀ e, DebugLine.from_str line = Except.error e →
      DebugObjects.feed objects line = some objects) ∧
    (∀ dl, DebugLine.from_str line = Except.ok dl →
      lookupObj objects dl.keyword = none →
      DebugObjects.create dl.keyword dl.tokens = none →
      DebugObjects.feed objects line = some objects) ∧
    (∀ dl sc e, DebugLine.from_str line = Except.ok dl →
      lookupObj objects dl.keyword = some sc →
      parseRow dl.tokens = none →
      Scope.setup_signal sc dl.tokens = Except.error e →
      DebugObjects.feed objects line = some objects) := by
  refine ⟨DebugObjects.feed_total objects line hok, ?_, ?_, ?_⟩
  · intro e he
    unfold DebugObjects.feed
    rw [he]
  · intro dl hdl hlook hcr
    simp only [DebugObjects.feed, hdl, hlook, hcr]
  · intro dl sc e hdl hlook hrow hsetup
    have hfeed : Scope.feed sc dl.tokens = some sc := by
      simp only [Scope.feed, hrow, hsetup]
    simp only [DebugObjects.feed, hdl, hlook, hfeed, Option.some.injEq]
    exact updateObj_self objects dl.keyword sc hlook

theorem C3_no_panic_witness :
    ((DebugObjects.feed [] "`SCOPE A").isSome = true ∧
     (∀ e, DebugLine.from_str "`SCOPE A" = Except.error e →
        DebugObjects.feed [] "`SCOPE A" = some []) ∧
     (∀ dl, DebugLine.from_str "`SCOPE A" = Except.ok dl →
        lookupObj [] dl.keyword = none →
        DebugObjects.create dl.keyword dl.tokens = none →
        DebugObjects.feed [] "`SCOPE A" = some []) ∧
     (∀ dl sc e, DebugLine.from_str "`SCOPE A" = Except.ok dl →
        lookupObj [] dl.keyword = some sc →
        parseRow dl.tokens = none →
        Scope.setup_signal sc dl.tokens = Except.error e →
        DebugObjects.feed [] "`SCOPE A" = some [])) :=
  C3_no_panic [] "`SCOPE A" (by intro p hp; cases hp)

/-- C4 (confirmed): for a scope with capacity `k ≥ 1` holding one signal with a
well-ordered clamp range, feeding `m > k` single-value data rows leaves the
retained history length at `min m (k - 1)`, strictly below the configured
capacity: each insert pushes to the back and then evicts from the front while
the length is at or above the capacity, reproducing the `capacity − 1`
off-by-one exactly. -/
theorem C4_capacity_roundtrip (nm : String) (k : ℕ) (rect : (F32 × F32) × (F32 × F32))
    (bg grid : Color) (sig : ScopeSignal) (rows : List F32)
    (hk : 1 ≤ k) (hm : k < rows.length) (hle : F32.le sig.min sig.max = true) :
    (feedRows ⟨nm, k, rect, bg, grid, [sig]⟩ rows).map
        (fun sc' => sc'.signals.map (fun s => s.values.length)) =
      some [min rows.length (k - 1)] ∧
    min rows.length (k - 1) < k := by
  obtain ⟨sc', sig', hfeed, hsigs, -, -, hsam, hlen⟩ :=
    feedRows_single rows ⟨nm, k, rect, bg, grid, [sig]⟩ sig rfl hk hle (by omega)
  constructor
  · rw [hfeed]
    simp only [Option.map_some', hsigs, List.map_cons, List.map_nil, Option.some.injEq,
      List.cons.injEq, and_true]
    rw [hlen]
    simp only
    omega
  · omega

theorem C4_capacity_roundtrip_witness :
    ((feedRows ⟨"S", 2, ((F32.num 0, F32.num 0), (F32.num 0, F32.num 0)), BLACK, GREY,
        [⟨"A", F32.num 0, F32.num 10, F32.num 0, F32.num 0, YELLOW, [F32.num 0, F32.num 0]⟩]⟩
        [F32.num 1, F32.num 2, F32.num 3]).map
        (fun sc' => sc'.signals.map (fun s => s.values.length)) =
      some [min [F32.num 1, F32.num 2, F32.num 3].length (2 - 1)] ∧
    min [F32.num 1, F32.num 2, F32.num 3].length (2 - 1) < 2) :=
  C4_capacity_roundtrip "S" 2 ((F32.num 0, F32.num 0), (F32.num 0, F32.num 0)) BLACK GREY
    ⟨"A", F32.num 0, F32.num 10, F32.num 0, F32.num 0, YELLOW, [F32.num 0, F32.num 0]⟩
    [F32.num 1, F32.num 2, F32.num 3] (by decide) (by decide) (by decide)

/-- C5 (counterexample): the claim says an unparsable SAMPLES argument falls
back to the default capacity and creation succeeds. It is false: the parse
error propagates out of `ScopeConfig::from_tokens`, creation fails, and no
object is registered. -/
theorem C5_counterexample :
    DebugObjects.feed [] "`SCOPE Foo SAMPLES abc" = some [] ∧
    ScopeConfig.from_tokens ["Foo", "SAMPLES", "abc"] =
      Except.error DebugObjectError.ParseNumberError := by
  constructor <;> decide

/-- C5 (amended): scope creation fails on a missing name, and also on a
missing SIZE or SAMPLES argument (`IndexError`) or an unparsable one
(`ParseNumberError`) — the error propagates and nothing is registered; only
an unrecognized keyword stops the scan without error, in which case the
not-yet-scanned fields keep their defaults (capacity 256, the fixed default
rectangle, the fixed default colour) and creation succeeds, registering the
default-configured scope. -/
theorem C5_creation_rule :
    (ScopeConfig.from_tokens [] = Except.error DebugObjectError.NoNameGiven) ∧
    (∀ nm : String, ScopeConfig.from_tokens [nm] =
      Except.ok ⟨strip_single_quotes nm, (F32.num 0, F32.num 0),
        (F32.num 255, F32.num 256), 256, 1, BLACK⟩) ∧
    (∀ (nm cmd : String) (rest : List String), cmd ≠ "SIZE" → cmd ≠ "SAMPLES" →
      ScopeConfig.from_tokens (nm :: cmd :: rest) =
        Except.ok ⟨strip_single_quotes nm, (F32.num 0, F32.num 0),
          (F32.num 255, F32.num 256), 256, 1, BLACK⟩) ∧
    (∀ (nm cmd : String) (rest : List String), cmd ≠ "SIZE" → cmd ≠ "SAMPLES" →
      DebugObjects.create "SCOPE" (nm :: cmd :: rest) =
        some ⟨strip_single_quotes nm, 256, ((F32.num 0, F32.num 0), (F32.num 255, F32.num 256)),
          BLACK, GREY, []⟩) ∧
    (∀ nm : String, ScopeConfig.from_tokens [nm, "SAMPLES"] =
      Except.error DebugObjectError.IndexError) ∧
    (∀ nm t : String, parseUsize? t = none →
      ScopeConfig.from_tokens [nm, "SAMPLES", t] =
        Except.error DebugObjectError.ParseNumberError) ∧
    (∀ nm : String, ScopeConfig.from_tokens [nm, "SIZE"] =
      Except.error DebugObjectError.IndexError) ∧
    (∀ nm t : String, parseF32? t = none →
      ScopeConfig.from_tokens [nm, "SIZE", t] =
        Except.error DebugObjectError.ParseNumberError) ∧
    (∀ nm t : String, parseUsize? t = none →
      DebugObjects.create "SCOPE" [nm, "SAMPLES", t] = none) :=
  ⟨rfl, fun _ => rfl, scopeConfig_unknown_keyword, create_unknown_keyword, fun _ => rfl,
   scopeConfig_samples_bad, fun _ => rfl, scopeConfig_size_bad, create_samples_bad⟩

theorem C5_creation_rule_witness :
    DebugObjects.create "SCOPE" ["Bar", "FOO"] =
      some ⟨strip_single_quotes "Bar", 256, ((F32.num 0, F32.num 0), (F32.num 255, F32.num 256)),
        BLACK, GREY, []⟩ ∧
    ScopeConfig.from_tokens ["Bar", "SIZE", "xyz"] =
      Except.error DebugObjectError.ParseNumberError ∧
    ScopeConfig.from_tokens ["Bar", "SAMPLES", "xyz"] =
      Except.error DebugObjectError.ParseNumberError ∧
    DebugObjects.create "SCOPE" ["Bar", "SAMPLES", "xyz"] = none :=
  ⟨C5_creation_rule.2.2.2.1 "Bar" "FOO" [] (by decide) (by decide),
   C5_creation_rule.2.2.2.2.2.2.2.1 "Bar" "xyz" (by decide),
   C5_creation_rule.2.2.2.2.2.1 "Bar" "xyz" (by decide),
   C5_creation_rule.2.2.2.2.2.2.2.2 "Bar" "xyz" (by decide)⟩

/-- C6 (counterexample): the claim says the literal creating keyword SCOPE is
never a routable key. It is false: the line `` `SCOPE SCOPE `` registers a
scope whose declared name is SCOPE, making SCOPE a routable key. -/
theorem C6_counterexample :
    (lookupObj ((DebugObjects.feedAll [] ["`SCOPE SCOPE"]).getD []) "SCOPE").isSome = true := by
  decide

/-- C6 (amended): after any sequence of fed lines starting from the empty
registry, every key of the object table equals the keyed object's own declared
name; consequently SCOPE is a routable key exactly when some object declared
the name SCOPE, as the creating keyword itself is never used as a key. -/
theorem C6_keys_invariant (lines : List String) (reg : Objects)
    (h : DebugObjects.feedAll [] lines = some reg) : KeysMatch reg :=
  DebugObjects.feedAll_keys lines [] reg (by intro p hp; cases hp) h

theorem C6_keys_invariant_witness :
    KeysMatch ((DebugObjects.feedAll [] ["`SCOPE K"]).getD []) :=
  C6_keys_invariant ["`SCOPE K"] _ (by decide)

/-- C7 (confirmed): a token list fed to an existing scope is treated as a data
row exactly when every token, after stripping one optional trailing comma,
parses as a float; an all-numeric list never appends a signal (the signal
count is unchanged, whatever the token count), and a list with any
unparsable token is handed to the signal-declaration parser instead, which
at most appends one new signal. -/
theorem C7_row_disambiguation (sc : Scope) (tokens : List String) (sc' : Scope)
    (h : Scope.feed sc tokens = some sc') :
    ((parseRow tokens).isSome = true ↔
      ∀ t ∈ tokens, (parseF32? (stripComma t)).isSome = true) ∧
    ((parseRow tokens).isSome = true → sc'.signals.length = sc.signals.length) ∧
    ((parseRow tokens).isSome = false →
      sc'.signals = sc.signals ∨ ∃ ns, sc'.signals = sc.signals ++ [ns]) := by
  refine ⟨parseRow_isSome tokens, ?_, ?_⟩
  · intro hsome
    unfold Scope.feed at h
    split at h
    · exact (Scope.feed_floats_fields h).2.2
    · rename_i hrow
      rw [hrow] at hsome
      simp at hsome
  · intro hnone
    unfold Scope.feed at h
    split at h
    · rename_i floats hrow
      rw [hrow] at hnone
      simp at hnone
    · split at h
      · rename_i sc2 hsetup
        injection h with h
        subst h
        obtain ⟨-, -, ns, hsignals, -⟩ := Scope.setup_signal_fields hsetup
        exact Or.inr ⟨ns, hsignals⟩
      · injection h with h
        subst h
        exact Or.inl rfl

/-- A concrete one-signal scope used by the disambiguation witness. -/
def c7scope : Scope :=
  ⟨"S", 4, ((F32.num 0, F32.num 0), (F32.num 0, F32.num 0)), BLACK, GREY,
    [⟨"A", F32.num 0, F32.num 10, F32.num 0, F32.num 0, YELLOW, [F32.num 0, F32.num 0]⟩]⟩

theorem C7_row_disambiguation_witness :
    ((parseRow ["31"]).isSome = true ↔
      ∀ t ∈ ["31"], (parseF32? (stripComma t)).isSome = true) ∧
    ((parseRow ["31"]).isSome = true →
      ((Scope.feed c7scope ["31"]).getD c7scope).signals.length = c7scope.signals.length) ∧
    ((parseRow ["31"]).isSome = false →
      ((Scope.feed c7scope ["31"]).getD c7scope).signals = c7scope.signals ∨
      ∃ ns, ((Scope.feed c7scope ["31"]).getD c7scope).signals = c7scope.signals ++ [ns]) :=
  C7_row_disambiguation c7scope ["31"] _ (by decide)

/-- C8 (counterexample): the claim says a bare trailing colour token is read
directly as the signal colour, so `['Sawtooth', '0', '63', '64', '10', 'CYAN']`
should produce a cyan signal. It is false: the colour branch is only entered
when token 5 starts with a percent sign, so the configuration keeps the
default yellow. -/
theorem C8_counterexample :
    ScopeSignalConfig.from_tokens
        [quoteStr ++ "Sawtooth" ++ quoteStr, "0", "63", "64", "10", "CYAN"] =
      Except.ok ⟨"Sawtooth", F32.num 0, F32.num 63, F32.num 64, F32.num 10, YELLOW⟩ ∧
    YELLOW ≠ CYAN := by
  constructor <;> decide

/-- C8 (amended): with the four mandatory numerics present, a sixth token that
does not start with a percent sign is ignored and the colour stays the default
yellow; a colour token is consulted only at position 6 and only when token 5
starts with a percent sign, in which case the colour is the map lookup with
yellow as fallback — so a recognized name is used and an unrecognized colour
token also falls back to yellow rather than erroring. -/
theorem C8_color_rule (nm m1 m2 y1 y2 t5 : String) (v1 v2 v3 v4 : F32)
    (h1 : parseF32? m1 = some v1) (h2 : parseF32? m2 = some v2)
    (h3 : parseF32? y1 = some v3) (h4 : parseF32? y2 = some v4) :
    (startsWithChar '%' t5 = false →
      ScopeSignalConfig.from_tokens [nm, m1, m2, y1, y2, t5] =
        Except.ok ⟨strip_single_quotes nm, v1, v2, v3, v4, YELLOW⟩) ∧
    (∀ t6, startsWithChar '%' t5 = true →
      ScopeSignalConfig.from_tokens [nm, m1, m2, y1, y2, t5, t6] =
        Except.ok ⟨strip_single_quotes nm, v1, v2, v3, v4, (colorLookup t6).getD YELLOW⟩) ∧
    (∀ t6, startsWithChar '%' t5 = true → colorLookup t6 = none →
      ScopeSignalConfig.from_tokens [nm, m1, m2, y1, y2, t5, t6] =
        Except.ok ⟨strip_single_quotes nm, v1, v2, v3, v4, YELLOW⟩) := by
  have hmask : ∀ t6 : String, startsWithChar '%' t5 = true →
      ScopeSignalConfig.from_tokens [nm, m1, m2, y1, y2, t5, t6] =
        Except.ok ⟨strip_single_quotes nm, v1, v2, v3, v4, (colorLookup t6).getD YELLOW⟩ := by
    intro t6 h5
    have g0 : [nm, m1, m2, y1, y2, t5, t6].get? 0 = some nm := rfl
    have g1 : [nm, m1, m2, y1, y2, t5, t6].get? 1 = some m1 := rfl
    have g2 : [nm, m1, m2, y1, y2, t5, t6].get? 2 = some m2 := rfl
    have g3 : [nm, m1, m2, y1, y2, t5, t6].get? 3 = some y1 := rfl
    have g4 : [nm, m1, m2, y1, y2, t5, t6].get? 4 = some y2 := rfl
    have g5 : [nm, m1, m2, y1, y2, t5, t6].get? 5 = some t5 := rfl
    have g6 : [nm, m1, m2, y1, y2, t5, t6].get? 6 = some t6 := rfl
    simp only [ScopeSignalConfig.from_tokens, g0, g1, g2, g3, g4, g5, g6, h1, h2, h3, h4, h5,
      if_true]
  refine ⟨?_, hmask, ?_⟩
  · intro h5
    have g0 : [nm, m1, m2, y1, y2, t5].get? 0 = some nm := rfl
    have g1 : [nm, m1, m2, y1, y2, t5].get? 1 = some m1 := rfl
    have g2 : [nm, m1, m2, y1, y2, t5].get? 2 = some m2 := rfl
    have g3 : [nm, m1, m2, y1, y2, t5].get? 3 = some y1 := rfl
    have g4 : [nm, m1, m2, y1, y2, t5].get? 4 = some y2 := rfl
    have g5 : [nm, m1, m2, y1, y2, t5].get? 5 = some t5 := rfl
    simp only [ScopeSignalConfig.from_tokens, g0, g1, g2, g3, g4, g5, h1, h2, h3, h4, h5,
      Bool.false_eq_true, if_false]
  · intro t6 h5 hnone
    rw [hmask t6 h5, hnone, Option.getD_none]

theorem C8_color_rule_witness :
    ((startsWithChar '%' "CYAN" = false →
      ScopeSignalConfig.from_tokens ["Saw", "0", "63", "64", "10", "CYAN"] =
        Except.ok ⟨strip_single_quotes "Saw", F32.num 0, F32.num 63, F32.num 64, F32.num 10,
          YELLOW⟩) ∧
    (∀ t6, startsWithChar '%' "CYAN" = true →
      ScopeSignalConfig.from_tokens ["Saw", "0", "63", "64", "10", "CYAN", t6] =
        Except.ok ⟨strip_single_quotes "Saw", F32.num 0, F32.num 63, F32.num 64, F32.num 10,
          (colorLookup t6).getD YELLOW⟩) ∧
    (∀ t6, startsWithChar '%' "CYAN" = true → colorLookup t6 = none →
      ScopeSignalConfig.from_tokens ["Saw", "0", "63", "64", "10", "CYAN", t6] =
        Except.ok ⟨strip_single_quotes "Saw", F32.num 0, F32.num 63, F32.num 64, F32.num 10,
          YELLOW⟩)) :=
  C8_color_rule "Saw" "0" "63" "64" "10" "CYAN" (F32.num 0) (F32.num 63) (F32.num 64)
    (F32.num 10) (by decide) (by decide) (by decide) (by decide)

/-- C9 (confirmed): for every byte sequence fed to a fresh framer, the emitted
lines are exactly the UTF-8-valid byte runs strictly between CRLF terminators
(terminator bytes never included, invalid runs skipped, trailing fragment
dropped), the number of complete runs equals the number of CRLF occurrences,
and hence at most that many lines are emitted. -/
theorem C9_framing (bs : List ℕ) :
    (LineProtocol.feed ⟨[]⟩ bs).2 = ((crlfSegments bs).1).filter utf8Valid ∧
    ((crlfSegments bs).1).length = countCRLF bs ∧
    ((LineProtocol.feed ⟨[]⟩ bs).2).length ≤ countCRLF bs := by
  have hspec := lineProtocol_feed_spec bs [] rfl
  simp only [List.nil_append] at hspec
  refine ⟨by rw [hspec], crlfSegments_count bs, ?_⟩
  rw [hspec]
  calc (((crlfSegments bs).1).filter utf8Valid).length
      ≤ ((crlfSegments bs).1).length := List.length_filter_le _ _
    _ = countCRLF bs := crlfSegments_count bs

/-- C10 (code bug): the claim says `feed_floats` terminates for every capacity,
including `SAMPLES 0`. The eviction loop `while len >= samples` with
`samples = 0` never exits — popping the front of the empty deque leaves the
length at `0 ≥ 0` — so the loop exhausts every fuel bound, and feeding one
value to a one-signal scope of capacity 0 never returns. -/
theorem C10_samples_zero_diverges :
    (∀ fuel (vals : List F32), evictLoop fuel vals 0 = none) ∧
    Scope.feed_floats ⟨"S", 0, ((F32.num 0, F32.num 0), (F32.num 0, F32.num 0)), BLACK, GREY,
        [⟨"A", F32.num 0, F32.num 63, F32.num 0, F32.num 0, YELLOW,
          [F32.num 0, F32.num 0]⟩]⟩ [F32.num 1] = none := by
  exact ⟨evictLoop_capacity_zero, by decide⟩

end RP
